import Mathlib

/-!
Verification of the kucoin_candle_trader repository: a shallow embedding of
the candle data model, the live-merge processing step, the backfill merge and
the websocket message handler, together with theorems settling the spec claims.

The KuCoin REST and websocket payloads carry each candle as a list of seven
strings `[timestamp, open, close, high, low, volume, turnover]`; the code
compares and sorts candles by the `timestamp` string (`candle[0]`).
-/

/-- A candle record as the code handles it: seven string fields, in the order
of the KuCoin payload.  `open` is a Lean keyword, hence the field `open_`. -/
structure Candle where
  timestamp : String
  open_ : String
  close : String
  high : String
  low : String
  volume : String
  turnover : String
deriving DecidableEq

/-- Numeric value of a digit character (`'0'` ↦ 0, …, `'9'` ↦ 9). -/
def digitVal (c : Char) : Nat := c.toNat - 48

/-- Numeric value of a list of digit characters read in base 10, the value
Python's `int()` assigns to a digit string. -/
def digitsValue : List Char → Nat
  | [] => 0
  | c :: cs => digitVal c * 10 ^ cs.length + digitsValue cs

/-- Numeric openTime of a candle: the value of its timestamp digit string
(this is what `int(candle[0])` computes in the source). -/
def tsVal (c : Candle) : Nat := digitsValue c.timestamp.data

/-- Lexicographic comparison of character lists by code point, the order
Python uses when comparing the timestamp strings `x[0]` with `<`. -/
def charListLe : List Char → List Char → Bool
  | [], _ => true
  | _ :: _, [] => false
  | a :: as, b :: bs =>
    if a.toNat < b.toNat then true
    else if b.toNat < a.toNat then false
    else charListLe as bs

/-- Comparison of two candles by their timestamp strings, the sort key
`lambda x: x[0]` used by `fetch_all_candles`. -/
def candleKeyLe (a b : Candle) : Bool := charListLe a.timestamp.data b.timestamp.data

/-- Python list slice `l[-n:]`: the last `n` elements, except that `l[-0:]`
is the whole list. -/
def sliceLast (n : Nat) (l : List α) : List α :=
  if n = 0 then l else l.drop (l.length - n)

/-- LiveDataUpdater.add_new_candle (kucoin_candle_spot/live_data_update.py):
append the candle, then if the list exceeds `max_candles` keep only the last
`max_candles` entries (`self.candle_list = self.candle_list[-self.max_candles:]`). -/
def add_new_candle (max_candles : Nat) (candle_list : List Candle) (candle : Candle) : List Candle :=
  let l := candle_list ++ [candle]
  if l.length > max_candles then sliceLast max_candles l else l

/-- LiveDataUpdater.update_last_candle: `self.candle_list[-1] = candle`,
overwriting the tail in place (the list is nonempty where this is called). -/
def update_last_candle (candle_list : List Candle) (candle : Candle) : List Candle :=
  candle_list.dropLast ++ [candle]

/-- LiveDataUpdater.process_data (kucoin_candle_spot/live_data_update.py):
a per-event step.  `data` is the optional payload from `ws.get_data`; the
classification is `if not self.candle_list or candle[0] != self.candle_list[-1][0]`
(append) versus the equal-timestamp case (update the tail in place). -/
def process_data (max_candles : Nat) (candle_list : List Candle) (data : Option Candle) : List Candle :=
  match data with
  | none => candle_list
  | some candle =>
    match candle_list.getLast? with
    | none => add_new_candle max_candles candle_list candle
    | some last =>
      if candle.timestamp = last.timestamp then
        update_last_candle candle_list candle
      else
        add_new_candle max_candles candle_list candle

/-- The LiveDataUpdater.start loop: drain a sequence of events through
`process_data`. -/
def process_seq (max_candles : Nat) (candle_list : List Candle) (events : List Candle) : List Candle :=
  events.foldl (fun acc e => process_data max_candles acc (some e)) candle_list

/-- One iteration of the body of CandleUpdate.start (live_data_update.py):
the classification `candle[0] != self.candle_list[-1][0]` indexes the tail
without an emptiness guard, so on an empty list it raises IndexError; on a
differing timestamp the candle is appended and the list capped at the
hard-coded constant 500; on an equal timestamp the tail is overwritten. -/
def start_step (candle_list : List Candle) (candle : Candle) : Except String (List Candle) :=
  match candle_list.getLast? with
  | none => Except.error "IndexError: list index out of range"
  | some last =>
    if candle.timestamp = last.timestamp then
      Except.ok (update_last_candle candle_list candle)
    else
      Except.ok (add_new_candle 500 candle_list candle)

/-- The CandleUpdate.start loop over a sequence of events, stopping at the
first uncaught exception. -/
def start_seq (candle_list : List Candle) (events : List Candle) : Except String (List Candle) :=
  events.foldlM (fun acc e => start_step acc e) candle_list

/-- CandleUpdate.new_candle_update (development/live_data_update_org.py):
returns the freshly rebuilt dataframe rows (modelled as the candle list the
dataframe is built from, `self.candle_list[-self.bars_lookback:]`) exactly in
the branch where the event's timestamp differs from the tail's; in every
other case (no event, empty list raising IndexError into the `except`
handler, or an equal-timestamp revision) it returns `none`.  The second
component is the updated candle list. -/
def new_candle_update (bars_lookback : Nat) (candle_list : List Candle) (data : Option Candle) :
    Option (List Candle) × List Candle :=
  match data with
  | none => (none, candle_list)
  | some candle =>
    match candle_list.getLast? with
    | none => (none, candle_list)
    | some last =>
      if candle.timestamp = last.timestamp then
        (none, update_last_candle candle_list candle)
      else
        let l := add_new_candle bars_lookback candle_list candle
        (some (sliceLast bars_lookback l), l)

/-- A step is an Extend step when an event is present, the list is nonempty
and the event's timestamp differs from the tail's — the condition under which
the code takes its append branch. -/
def isExtendStep (candle_list : List Candle) (data : Option Candle) : Bool :=
  match data, candle_list.getLast? with
  | some candle, some last => if candle.timestamp = last.timestamp then false else true
  | _, _ => false

/-- The Series ordering invariant: openTimes strictly increasing along
the list. -/
def strictlyIncreasing (l : List Candle) : Prop :=
  List.Chain' (fun a b => tsVal a < tsVal b) l

/-- Executable check of the ordering invariant. -/
def strictlyIncreasingB : List Candle → Bool
  | [] => true
  | [_] => true
  | a :: b :: rest => decide (tsVal a < tsVal b) && strictlyIncreasingB (b :: rest)

/-- A run of events is stale-free with respect to an initial list when at
each step the incoming event either revises the tail (equal timestamp string)
or carries a strictly larger numeric openTime than the tail. -/
def noStale (max_candles : Nat) : List Candle → List Candle → Bool
  | _, [] => true
  | l, e :: es =>
    (match l.getLast? with
     | none => true
     | some last => decide (tsVal last < tsVal e) || decide (e.timestamp = last.timestamp))
    && noStale max_candles (process_data max_candles l (some e)) es

/-- SpotDataFetcher.fetch_all_candles (kucoin_fetch_spot.py), the reconcile
step on the accumulated chunk records: if nothing was fetched return `[]`,
otherwise sort by the timestamp string (`chunks.sort(key=lambda x: x[0])` —
a string comparison) and keep the records whose numeric timestamp lies in
`[start_ts, end_ts]`.  No deduplication is performed. -/
def fetch_all_candles (chunks : List Candle) (start_ts end_ts : Nat) : List Candle :=
  if chunks = [] then []
  else (chunks.mergeSort candleKeyLe).filter
    (fun c => decide (start_ts ≤ tsVal c) && decide (tsVal c ≤ end_ts))

/-- ConnectionMetrics (kucoin_candle_spot/ws_websocket_lib.py): the four
counters the dataclass actually declares.  Times are modelled as naturals. -/
structure ConnectionMetrics where
  message_count : Nat := 0
  error_count : Nat := 0
  connected_at : Nat := 0
  last_message_at : Nat := 0
deriving DecidableEq

/-- The fate of one raw websocket frame inside `_on_message`, after the
Python-level parse attempt: `malformed` models a frame on which `json.loads`
raises `JSONDecodeError`; `irrelevant` a parsed frame that is not a
candlestick data message; `badData` a data message whose payload handling
raises after the counters were touched (the generic `except Exception`
branch); `dataMsg` a well-formed candlestick payload. -/
inductive IncomingMessage where
  | malformed
  | irrelevant
  | badData
  | dataMsg (payload : Candle)
deriving DecidableEq

/-- State owned by KucoinCandlestickWebSocket: its metrics and the bounded
delivery queue (`queue.Queue(maxsize=1000)`), front at the head. -/
structure WsState where
  metrics : ConnectionMetrics
  data_queue : List Candle
deriving DecidableEq

/-- The `maxsize` of the delivery queue in the packaged websocket client. -/
def queue_maxsize : Nat := 1000

/-- KucoinCandlestickWebSocket._on_message: a JSONDecodeError is caught by
its dedicated handler which only logs; a non-data message is ignored; a data
message first increments `message_count` and refreshes `last_message_at`,
then `put_nowait` either enqueues the payload or, when the queue is full,
raises `queue.Full`, which is caught and only logged (drop-newest); a
processing error after the counters raises into the generic handler which
additionally increments `error_count`. -/
def on_message (st : WsState) (msg : IncomingMessage) (now : Nat) : WsState :=
  match msg with
  | .malformed => st
  | .irrelevant => st
  | .badData =>
    { st with metrics := { st.metrics with
        message_count := st.metrics.message_count + 1,
        last_message_at := now,
        error_count := st.metrics.error_count + 1 } }
  | .dataMsg payload =>
    let m := { st.metrics with
        message_count := st.metrics.message_count + 1,
        last_message_at := now }
    if st.data_queue.length < queue_maxsize then
      { metrics := m, data_queue := st.data_queue ++ [payload] }
    else
      { metrics := m, data_queue := st.data_queue }

/-- Python `str.endswith`: suffix match on code points. -/
def py_endswith (s suffix : String) : Bool := suffix.data.isSuffixOf s.data

/-- Python `int()` restricted to the shapes that occur here: an optional
leading minus sign followed by at least one digit; every other string makes
`int()` raise `ValueError`, modelled as `none`. -/
def py_int? (s : String) : Option Int :=
  match s.data with
  | [] => none
  | '-' :: ds =>
    if ds = [] then none
    else if ds.all Char.isDigit then some (-(digitsValue ds : Int)) else none
  | ds => if ds.all Char.isDigit then some (digitsValue ds : Int) else none

/-- CandleUpdate.calculate_start_time_with_bars (live_data_update.py):
dispatch on the timeframe suffix, parse the numeric prefix, and subtract
`bars_lookback` intervals (in seconds) from `now`; a timeframe ending in
none of `min`/`hour`/`day` raises `ValueError("Unsupported timeframe")`,
and a non-numeric prefix makes `int()` raise.  No check of `bars_lookback`
is performed. -/
def calculate_start_time_with_bars (timeframe : String) (bars_lookback : Int) (now : Int) :
    Except String Int :=
  if py_endswith timeframe "min" then
    match py_int? (timeframe.dropRight 3) with
    | none => Except.error "ValueError: invalid literal for int"
    | some n => Except.ok (now - bars_lookback * (n * 60))
  else if py_endswith timeframe "hour" then
    match py_int? (timeframe.dropRight 4) with
    | none => Except.error "ValueError: invalid literal for int"
    | some n => Except.ok (now - bars_lookback * (n * 3600))
  else if py_endswith timeframe "day" then
    match py_int? (timeframe.dropRight 3) with
    | none => Except.error "ValueError: invalid literal for int"
    | some n => Except.ok (now - bars_lookback * (n * 86400))
  else
    Except.error "ValueError: Unsupported timeframe"

/-- CandleUpdate.__init__ (live_data_update.py): the start time is computed
on line 14, before the fetcher is built (line 16) and the backfill fetch
runs (line 19), so a timeframe error propagates before any fetch; on
success the backfill result is obtained from the fetch collaborator. -/
def candleUpdate_init (fetch : Unit → List Candle) (timeframe : String)
    (bars_lookback : Int) (now : Int) : Except String (Int × List Candle) :=
  match calculate_start_time_with_bars timeframe bars_lookback now with
  | Except.error e => Except.error e
  | Except.ok start_time => Except.ok (start_time, fetch ())

/-- Whether construction succeeded. -/
def exceptOk : Except String Int → Bool
  | Except.ok _ => true
  | Except.error _ => false

/-- All characters of the string are decimal digits. -/
def allDigits (s : String) : Bool := s.data.all Char.isDigit

/-- Concrete candle with the given timestamp and close, used in witnesses
and counterexamples. -/
def mkCandle (ts cl : String) : Candle := ⟨ts, "1", cl, "1", "1", "1", "1"⟩

theorem strictlyIncreasing_iff (l : List Candle) :
    strictlyIncreasing l ↔ strictlyIncreasingB l = true := by
  induction l with
  | nil => simp [strictlyIncreasing, strictlyIncreasingB]
  | cons a l ih =>
    cases l with
    | nil => simp [strictlyIncreasing, strictlyIncreasingB]
    | cons b rest =>
      simp only [strictlyIncreasing, List.chain'_cons, strictlyIncreasingB,
        Bool.and_eq_true, decide_eq_true_eq] at *
      exact and_congr Iff.rfl ih

instance : DecidablePred strictlyIncreasing := fun l =>
  decidable_of_iff (strictlyIncreasingB l = true) (strictlyIncreasing_iff l).symm

theorem add_new_candle_nil (N : Nat) (c : Candle) : add_new_candle N [] c = [c] := by
  unfold add_new_candle sliceLast
  cases N <;> simp

theorem sliceLast_eq_drop {n : Nat} (hn : n ≠ 0) (l : List Candle) :
    sliceLast n l = l.drop (l.length - n) := by
  unfold sliceLast
  simp [hn]

theorem chain'_drop {α : Type} {R : α → α → Prop} (n : Nat) (l : List α)
    (h : List.Chain' R l) : List.Chain' R (l.drop n) := by
  induction n with
  | zero => simpa using h
  | succ n ih =>
    rw [← List.tail_drop]
    exact List.Chain'.tail ih

theorem length_add_new_candle {N : Nat} (hN : 0 < N) (l : List Candle) (e : Candle)
    (h : l.length ≤ N) : (add_new_candle N l e).length ≤ N := by
  unfold add_new_candle
  dsimp only
  split_ifs with h1
  · rw [sliceLast_eq_drop (by omega)]
    simp only [List.length_drop, List.length_append, List.length_cons, List.length_nil]
    omega
  · simp only [List.length_append, List.length_cons, List.length_nil] at h1 ⊢
    omega

theorem length_update_last_candle (l : List Candle) (e : Candle) (h : l ≠ []) :
    (update_last_candle l e).length = l.length := by
  unfold update_last_candle
  simp only [List.length_append, List.length_dropLast, List.length_cons, List.length_nil]
  have : 0 < l.length := List.length_pos.mpr h
  omega

theorem length_process_data {N : Nat} (hN : 0 < N) (l : List Candle) (d : Option Candle)
    (h : l.length ≤ N) : (process_data N l d).length ≤ N := by
  cases d with
  | none => simpa [process_data] using h
  | some candle =>
    cases hl : l.getLast? with
    | none => simpa [process_data, hl] using length_add_new_candle hN l candle h
    | some last =>
      by_cases hts : candle.timestamp = last.timestamp
      · have hne : l ≠ [] := by
          intro h0
          rw [h0] at hl
          simp at hl
        simp [process_data, hl, hts, length_update_last_candle l candle hne, h]
      · simpa [process_data, hl, hts] using length_add_new_candle hN l candle h

theorem length_process_seq {N : Nat} (hN : 0 < N) (l : List Candle) (es : List Candle)
    (h : l.length ≤ N) : (process_seq N l es).length ≤ N := by
  induction es generalizing l with
  | nil => exact h
  | cons e es ih =>
    exact ih (process_data N l (some e)) (length_process_data hN l (some e) h)

theorem add_new_candle_of_length_lt {N : Nat} (l : List Candle) (e : Candle)
    (h : l.length < N) : add_new_candle N l e = l ++ [e] := by
  unfold add_new_candle
  dsimp only
  split_ifs with h1
  · exfalso
    simp only [List.length_append, List.length_cons, List.length_nil] at h1
    omega
  · rfl

theorem tsVal_eq_of_timestamp_eq {e last : Candle} (h : e.timestamp = last.timestamp) :
    tsVal e = tsVal last := by
  unfold tsVal
  rw [h]

theorem si_update_last {l : List Candle} {e last : Candle}
    (hsi : strictlyIncreasing l) (hl : l.getLast? = some last)
    (hts : tsVal e = tsVal last) : strictlyIncreasing (update_last_candle l e) := by
  have hdec : l.dropLast ++ [last] = l := List.dropLast_append_getLast? last hl
  unfold strictlyIncreasing update_last_candle at *
  rw [← hdec] at hsi
  rcases List.chain'_append.mp hsi with ⟨h1, _, h3⟩
  refine List.chain'_append.mpr ⟨h1, List.chain'_singleton e, ?_⟩
  intro x hx y hy
  simp only [List.head?_cons, Option.mem_def, Option.some.injEq] at hy
  subst hy
  have := h3 x hx last (by simp)
  omega

theorem si_append {l : List Candle} {e : Candle}
    (hsi : strictlyIncreasing l) (hlast : ∀ x, l.getLast? = some x → tsVal x < tsVal e) :
    strictlyIncreasing (l ++ [e]) := by
  unfold strictlyIncreasing at *
  refine List.chain'_append.mpr ⟨hsi, List.chain'_singleton e, ?_⟩
  intro x hx y hy
  simp only [List.head?_cons, Option.mem_def, Option.some.injEq] at hy
  subst hy
  exact hlast x hx

theorem si_add_new_candle {N : Nat} {l : List Candle} {e : Candle}
    (hsi : strictlyIncreasing l) (hlast : ∀ x, l.getLast? = some x → tsVal x < tsVal e) :
    strictlyIncreasing (add_new_candle N l e) := by
  unfold add_new_candle
  dsimp only
  split_ifs with h1
  · unfold sliceLast
    split_ifs with h0
    · exact si_append hsi hlast
    · exact chain'_drop _ _ (si_append hsi hlast)
  · exact si_append hsi hlast

theorem si_process_data {N : Nat} {l : List Candle} {e : Candle}
    (hsi : strictlyIncreasing l)
    (hcond : ∀ last, l.getLast? = some last → tsVal last < tsVal e ∨ e.timestamp = last.timestamp) :
    strictlyIncreasing (process_data N l (some e)) := by
  cases hl : l.getLast? with
  | none =>
    have : l = [] := List.getLast?_eq_none_iff.mp hl
    subst this
    simp only [process_data, hl, add_new_candle_nil]
    exact List.chain'_singleton e
  | some last =>
    rcases hcond last hl with hlt | heq
    · have hne : e.timestamp ≠ last.timestamp := by
        intro h
        rw [tsVal_eq_of_timestamp_eq h] at hlt
        omega
      simp only [process_data, hl, hne, if_false]
      refine si_add_new_candle hsi ?_
      intro x hx
      rw [hl] at hx
      cases hx
      exact hlt
    · simp only [process_data, hl, heq, if_true]
      exact si_update_last hsi hl (tsVal_eq_of_timestamp_eq heq)

theorem si_process_seq {N : Nat} {l : List Candle} {es : List Candle}
    (hsi : strictlyIncreasing l) (hns : noStale N l es = true) :
    strictlyIncreasing (process_seq N l es) := by
  induction es generalizing l with
  | nil => exact hsi
  | cons e es ih =>
    have hns' := hns
    unfold noStale at hns'
    rw [Bool.and_eq_true] at hns'
    obtain ⟨hc, hrest⟩ := hns'
    have hstep : strictlyIncreasing (process_data N l (some e)) := by
      refine si_process_data hsi ?_
      intro last hl
      rw [hl] at hc
      simp only [Bool.or_eq_true, decide_eq_true_eq] at hc
      exact hc
    exact ih hstep hrest

theorem new_candle_update_isSome (lb : Nat) (l : List Candle) (d : Option Candle) :
    ((new_candle_update lb l d).1).isSome = isExtendStep l d := by
  cases d with
  | none => rfl
  | some candle =>
    cases hl : l.getLast? with
    | none => simp [new_candle_update, isExtendStep, hl]
    | some last =>
      by_cases hts : candle.timestamp = last.timestamp
      · simp [new_candle_update, isExtendStep, hl, hts]
      · simp [new_candle_update, isExtendStep, hl, hts]

theorem countP_fetch_all_candles (chunks : List Candle) (start_ts end_ts : Nat) (p : Candle → Bool) :
    (fetch_all_candles chunks start_ts end_ts).countP p
      = chunks.countP
          (fun c => p c && (decide (start_ts ≤ tsVal c) && decide (tsVal c ≤ end_ts))) := by
  unfold fetch_all_candles
  split_ifs with h
  · subst h
    simp
  · rw [List.countP_filter]
    exact (List.mergeSort_perm chunks candleKeyLe).countP_eq _

theorem digit_toNat_bounds {c : Char} (h : c.isDigit = true) : 48 ≤ c.toNat ∧ c.toNat ≤ 57 := by
  simp only [Char.isDigit, Bool.and_eq_true, decide_eq_true_eq, ge_iff_le] at h
  exact h

theorem charListLe_cons {a b : Char} {as bs : List Char} :
    charListLe (a :: as) (b :: bs) = true ↔
      a.toNat < b.toNat ∨ (a.toNat = b.toNat ∧ charListLe as bs = true) := by
  simp only [charListLe]
  split_ifs with h1 h2
  · exact ⟨fun _ => Or.inl h1, fun _ => rfl⟩
  · constructor
    · intro h
      cases h
    · intro h
      rcases h with h | ⟨h, _⟩ <;> omega
  · constructor
    · intro h
      exact Or.inr ⟨by omega, h⟩
    · intro h
      rcases h with h | ⟨_, h⟩
      · omega
      · exact h

theorem charListLe_total : ∀ (as bs : List Char), (charListLe as bs || charListLe bs as) = true
  | [], _ => by simp [charListLe]
  | _ :: _, [] => by simp [charListLe]
  | a :: as, b :: bs => by
    rcases Nat.lt_trichotomy a.toNat b.toNat with h | h | h
    · simp [charListLe_cons, h]
    · have := charListLe_total as bs
      rw [Bool.or_eq_true] at this
      rcases this with h1 | h1
      · simp [charListLe_cons, h, h1]
      · rw [Bool.or_eq_true]
        refine Or.inr ?_
        rw [charListLe_cons]
        exact Or.inr ⟨h.symm, h1⟩
    · rw [Bool.or_eq_true]
      refine Or.inr ?_
      rw [charListLe_cons]
      exact Or.inl h

theorem charListLe_trans : ∀ (as bs cs : List Char),
    charListLe as bs = true → charListLe bs cs = true → charListLe as cs = true
  | [], _, cs => fun _ _ => by simp [charListLe]
  | a :: as, [], cs => fun h _ => by simp [charListLe] at h
  | _ :: _, _ :: _, [] => fun _ h => by simp [charListLe] at h
  | a :: as, b :: bs, c :: cs => fun h1 h2 => by
    rw [charListLe_cons] at h1 h2 ⊢
    rcases h1 with h1 | ⟨h1, hr1⟩
    · rcases h2 with h2 | ⟨h2, _⟩
      · exact Or.inl (by omega)
      · exact Or.inl (by omega)
    · rcases h2 with h2 | ⟨h2, hr2⟩
      · exact Or.inl (by omega)
      · exact Or.inr ⟨by omega, charListLe_trans as bs cs hr1 hr2⟩

theorem digitsValue_lt {l : List Char} (h : l.all Char.isDigit = true) :
    digitsValue l < 10 ^ l.length := by
  induction l with
  | nil => simp [digitsValue]
  | cons c cs ih =>
    rw [List.all_cons, Bool.and_eq_true] at h
    obtain ⟨hc, hcs⟩ := h
    have h9 : digitVal c ≤ 9 := by
      have := digit_toNat_bounds hc
      unfold digitVal
      omega
    have hrec := ih hcs
    simp only [digitsValue, List.length_cons, pow_succ]
    nlinarith

theorem le_of_charListLe_digits : ∀ (as bs : List Char), as.length = bs.length →
    as.all Char.isDigit = true → bs.all Char.isDigit = true →
    charListLe as bs = true → digitsValue as ≤ digitsValue bs
  | [], [], _, _, _, _ => le_refl 0
  | [], _ :: _, hlen, _, _, _ => by simp at hlen
  | _ :: _, [], hlen, _, _, _ => by simp at hlen
  | a :: as, b :: bs, hlen, hda, hdb, hle => by
    rw [List.length_cons, List.length_cons] at hlen
    have hlen' : as.length = bs.length := by omega
    rw [List.all_cons, Bool.and_eq_true] at hda hdb
    obtain ⟨ha, has⟩ := hda
    obtain ⟨hb, hbs⟩ := hdb
    rw [charListLe_cons] at hle
    have hba := digit_toNat_bounds ha
    have hbb := digit_toNat_bounds hb
    have hboundA := digitsValue_lt has
    have hboundB := digitsValue_lt hbs
    simp only [digitsValue, hlen']
    rcases hle with hlt | ⟨heq, hrec⟩
    · have hdlt : digitVal a < digitVal b := by
        unfold digitVal
        omega
      have h1 : digitsValue as < 10 ^ bs.length := by
        rw [← hlen']
        exact hboundA
      nlinarith
    · have hde : digitVal a = digitVal b := by
        unfold digitVal
        omega
      have := le_of_charListLe_digits as bs hlen' has hbs hrec
      rw [hde]
      omega

theorem candleKeyLe_trans (a b c : Candle) (h1 : candleKeyLe a b = true)
    (h2 : candleKeyLe b c = true) : candleKeyLe a c = true :=
  charListLe_trans _ _ _ h1 h2

theorem candleKeyLe_total (a b : Candle) : (candleKeyLe a b || candleKeyLe b a) = true :=
  charListLe_total _ _

theorem sorted_fetch_all_candles (chunks : List Candle) (start_ts end_ts : Nat) :
    (fetch_all_candles chunks start_ts end_ts).Pairwise
      (fun a b => candleKeyLe a b = true) := by
  unfold fetch_all_candles
  split_ifs with h
  · exact List.Pairwise.nil
  · exact List.Pairwise.filter _
      (List.sorted_mergeSort candleKeyLe_trans candleKeyLe_total chunks)

theorem mem_fetch_all_candles {c : Candle} {chunks : List Candle} {start_ts end_ts : Nat}
    (h : c ∈ fetch_all_candles chunks start_ts end_ts) : c ∈ chunks := by
  unfold fetch_all_candles at h
  split_ifs at h with h0
  · simp at h
  · rw [List.mem_filter] at h
    exact List.mem_mergeSort.mp h.1

theorem sorted_val_fetch_all_candles (chunks : List Candle) (start_ts end_ts L : Nat)
    (h : ∀ c ∈ chunks, allDigits c.timestamp = true ∧ c.timestamp.data.length = L) :
    (fetch_all_candles chunks start_ts end_ts).Pairwise (fun a b => tsVal a ≤ tsVal b) := by
  refine List.Pairwise.imp_of_mem ?_ (sorted_fetch_all_candles chunks start_ts end_ts)
  intro a b ha hb hr
  obtain ⟨hda, hla⟩ := h a (mem_fetch_all_candles ha)
  obtain ⟨hdb, hlb⟩ := h b (mem_fetch_all_candles hb)
  unfold tsVal
  exact le_of_charListLe_digits _ _ (by rw [hla, hlb]) hda hdb hr

theorem fetch_mixed_digits :
    fetch_all_candles [mkCandle "100" "1", mkCandle "99" "1"] 0 1000
      = [mkCandle "100" "1", mkCandle "99" "1"] := by
  unfold fetch_all_candles
  rw [if_neg (by decide), List.mergeSort_of_sorted (by decide)]
  decide

theorem getLast?_add_new_candle (N : Nat) (l : List Candle) (e : Candle) :
    (add_new_candle N l e).getLast? = some e := by
  unfold add_new_candle
  dsimp only
  split_ifs with h1
  · unfold sliceLast
    split_ifs with h0
    · exact List.getLast?_concat l
    · rw [List.length_append] at h1 ⊢
      simp only [List.length_cons, List.length_nil]
      rw [List.drop_append_of_le_length (by simp; omega)]
      exact List.getLast?_concat _
  · exact List.getLast?_concat l

theorem add_new_candle_evict {N : Nat} (hN : 0 < N) (l : List Candle) (e : Candle)
    (h : l.length = N) : add_new_candle N l e = l.drop 1 ++ [e] := by
  unfold add_new_candle
  dsimp only
  rw [if_pos (by simp [h])]
  rw [sliceLast_eq_drop (by omega)]
  have hlen : (l ++ [e]).length - N = 1 := by
    simp [h]
  rw [hlen, List.drop_append_of_le_length (by omega)]

/-- C1 counterexample: an event with numeric openTime 99, strictly below the
tail's 101, is processed by `process_data` — the claim says it would be
discarded with the series unchanged, but the code appends it. -/
theorem c1_counterexample :
    tsVal (mkCandle "99" "7") < tsVal (mkCandle "101" "1") ∧
    process_data 500 [mkCandle "100" "1", mkCandle "101" "1"] (some (mkCandle "99" "7"))
      = [mkCandle "100" "1", mkCandle "101" "1", mkCandle "99" "7"] ∧
    [mkCandle "100" "1", mkCandle "101" "1", mkCandle "99" "7"]
      ≠ [mkCandle "100" "1", mkCandle "101" "1"] := by
  decide

/-- C1 (amended): an event whose openTime is strictly less than the series
tail's is not discarded: its timestamp differs from the tail's, so the
per-event step classifies it as a new candle and appends it (the event
becomes the new tail); no dropped-message counter exists in this step. -/
theorem c1_amended (N : Nat) (l : List Candle) (e last : Candle)
    (hl : l.getLast? = some last) (hlt : tsVal e < tsVal last) :
    process_data N l (some e) = add_new_candle N l e ∧
    (process_data N l (some e)).getLast? = some e := by
  have hne : e.timestamp ≠ last.timestamp := by
    intro h
    rw [tsVal_eq_of_timestamp_eq h] at hlt
    omega
  have h1 : process_data N l (some e) = add_new_candle N l e := by
    simp [process_data, hl, hne]
  exact ⟨h1, by rw [h1]; exact getLast?_add_new_candle N l e⟩

/-- C1 witness: the amended statement applied to a concrete stale event. -/
theorem c1_witness :
    [mkCandle "100" "1", mkCandle "101" "1"].getLast? = some (mkCandle "101" "1") ∧
    tsVal (mkCandle "99" "7") < tsVal (mkCandle "101" "1") ∧
    (process_data 500 [mkCandle "100" "1", mkCandle "101" "1"] (some (mkCandle "99" "7"))
        = add_new_candle 500 [mkCandle "100" "1", mkCandle "101" "1"] (mkCandle "99" "7") ∧
      (process_data 500 [mkCandle "100" "1", mkCandle "101" "1"]
          (some (mkCandle "99" "7"))).getLast? = some (mkCandle "99" "7")) :=
  ⟨by decide, by decide,
    c1_amended 500 [mkCandle "100" "1", mkCandle "101" "1"] (mkCandle "99" "7")
      (mkCandle "101" "1") (by decide) (by decide)⟩

/-- C2 counterexample: two overlapping one-record chunks with the same
openTime `100` but different close fields; the merge keeps both records, not
exactly one. -/
theorem c2_counterexample :
    (fetch_all_candles [mkCandle "100" "1", mkCandle "100" "2"] 50 200).countP
      (fun c => c.timestamp == "100") = 2 ∧ (2 : Nat) ≠ 1 := by
  constructor
  · rw [countP_fetch_all_candles]
    decide
  · decide

/-- C2 (amended): the backfill merge `fetch_all_candles` sorts the
accumulated chunks by timestamp string and filters to the requested range,
but performs no deduplication: for every predicate, the output count equals
the count of in-range records in the input, so duplicate openTime keys from
overlapping chunks are all retained. -/
theorem c2_amended (chunks : List Candle) (start_ts end_ts : Nat) (p : Candle → Bool) :
    (fetch_all_candles chunks start_ts end_ts).countP p
      = chunks.countP
          (fun c => p c && (decide (start_ts ≤ tsVal c) && decide (tsVal c ≤ end_ts))) :=
  countP_fetch_all_candles chunks start_ts end_ts p

/-- C3 counterexample: from the strictly increasing backfill `[100, 101]`
the loop processes a stale event with openTime 99; the loop appends it and
the series is no longer strictly increasing. -/
theorem c3_counterexample :
    strictlyIncreasing [mkCandle "100" "1", mkCandle "101" "1"] ∧
    tsVal (mkCandle "99" "3") < tsVal (mkCandle "101" "1") ∧
    ¬ strictlyIncreasing
        (process_seq 500 [mkCandle "100" "1", mkCandle "101" "1"] [mkCandle "99" "3"]) := by
  decide

/-- C3 (amended): starting from a strictly increasing series, the series
stays strictly increasing throughout the live-merge loop provided the run of
events is stale-free — each event either carries a strictly larger openTime
than the current tail (and is appended) or revises the tail in place; a
stale event breaks the invariant, as the counterexample shows. -/
theorem c3_amended (N : Nat) (l es : List Candle) (hsi : strictlyIncreasing l)
    (hns : noStale N l es = true) : strictlyIncreasing (process_seq N l es) :=
  si_process_seq hsi hns

/-- C3 witness: a stale-free run of three events (one revision, two appends)
preserves the ordering invariant. -/
theorem c3_witness :
    strictlyIncreasing [mkCandle "100" "1"] ∧
    noStale 500 [mkCandle "100" "1"]
      [mkCandle "101" "1", mkCandle "101" "2", mkCandle "102" "1"] = true ∧
    strictlyIncreasing (process_seq 500 [mkCandle "100" "1"]
      [mkCandle "101" "1", mkCandle "101" "2", mkCandle "102" "1"]) :=
  ⟨by decide, by decide,
    c3_amended 500 [mkCandle "100" "1"]
      [mkCandle "101" "1", mkCandle "101" "2", mkCandle "102" "1"] (by decide) (by decide)⟩

/-- C4 counterexample: the script CandleUpdate is constructed with
`bars_lookback = 1`, but its loop caps the list at the hard-coded constant
500, so two appends grow the series to length 3 > 1. -/
theorem c4_counterexample :
    start_seq [mkCandle "100" "1"] [mkCandle "101" "1", mkCandle "102" "1"]
      = Except.ok [mkCandle "100" "1", mkCandle "101" "1", mkCandle "102" "1"] ∧
    ¬ ([mkCandle "100" "1", mkCandle "101" "1", mkCandle "102" "1"].length ≤ 1) := by
  exact ⟨rfl, by decide⟩

/-- C4 (amended): for the packaged LiveDataUpdater, whose configured
capacity is `max_candles = N ≥ 1`, a series initially within capacity stays
within capacity under every sequence of processed events, and an append
evicts exactly the front element exactly when the series is at capacity
(otherwise it appends without eviction); the script CandleUpdate instead
caps at the constant 500 regardless of the constructed lookback. -/
theorem c4_amended (N : Nat) (l : List Candle) (es : List Candle) (e : Candle)
    (hN : 0 < N) (h : l.length ≤ N) :
    (process_seq N l es).length ≤ N ∧
    (l.length = N → add_new_candle N l e = l.drop 1 ++ [e]) ∧
    (l.length < N → add_new_candle N l e = l ++ [e]) :=
  ⟨length_process_seq hN l es h,
   fun hfull => add_new_candle_evict hN l e hfull,
   fun hlt => add_new_candle_of_length_lt l e hlt⟩

/-- C4 witness: capacity 2, series at capacity; the invariant holds for a
run of two events and the eviction equations evaluate as stated. -/
theorem c4_witness :
    0 < 2 ∧ [mkCandle "100" "1", mkCandle "101" "1"].length ≤ 2 ∧
    ((process_seq 2 [mkCandle "100" "1", mkCandle "101" "1"]
        [mkCandle "102" "1", mkCandle "103" "1"]).length ≤ 2 ∧
      ([mkCandle "100" "1", mkCandle "101" "1"].length = 2 →
        add_new_candle 2 [mkCandle "100" "1", mkCandle "101" "1"] (mkCandle "102" "1")
          = [mkCandle "100" "1", mkCandle "101" "1"].drop 1 ++ [mkCandle "102" "1"]) ∧
      ([mkCandle "100" "1", mkCandle "101" "1"].length < 2 →
        add_new_candle 2 [mkCandle "100" "1", mkCandle "101" "1"] (mkCandle "102" "1")
          = [mkCandle "100" "1", mkCandle "101" "1"] ++ [mkCandle "102" "1"])) :=
  ⟨by decide, by decide,
    c4_amended 2 [mkCandle "100" "1", mkCandle "101" "1"]
      [mkCandle "102" "1", mkCandle "103" "1"] (mkCandle "102" "1") (by decide) (by decide)⟩

/-- C5: the completed-bar query `new_candle_update` returns a non-empty
result exactly on a processing step whose event extends the series (event
present, series nonempty, event timestamp different from the tail's); in
particular, after any call, a second call whose own step is not an Extend
returns none — the one-shot completion signal. -/
theorem c5_poll_completed_once (lb : Nat) (l : List Candle) (d : Option Candle) :
    ((new_candle_update lb l d).1).isSome = isExtendStep l d ∧
    (∀ d2 : Option Candle,
      isExtendStep (new_candle_update lb l d).2 d2 = false →
      (new_candle_update lb (new_candle_update lb l d).2 d2).1 = none) := by
  refine ⟨new_candle_update_isSome lb l d, ?_⟩
  intro d2 h
  have hs := new_candle_update_isSome lb (new_candle_update lb l d).2 d2
  rw [h] at hs
  cases ho : (new_candle_update lb (new_candle_update lb l d).2 d2).1 with
  | none => rfl
  | some x =>
    rw [ho] at hs
    simp at hs

/-- C5 witness: after an Extend on `[100]` by an event at 101, a second
event at 101 (a revision of the new tail) yields none. -/
theorem c5_witness :
    isExtendStep (new_candle_update 5 [mkCandle "100" "1"] (some (mkCandle "101" "1"))).2
      (some (mkCandle "101" "9")) = false ∧
    (new_candle_update 5 (new_candle_update 5 [mkCandle "100" "1"]
        (some (mkCandle "101" "1"))).2 (some (mkCandle "101" "9"))).1 = none :=
  ⟨by decide,
    (c5_poll_completed_once 5 [mkCandle "100" "1"] (some (mkCandle "101" "1"))).2
      (some (mkCandle "101" "9")) (by decide)⟩

theorem on_message_full (st : WsState) (c : Candle) (now : Nat)
    (h : queue_maxsize ≤ st.data_queue.length) :
    on_message st (IncomingMessage.dataMsg c) now =
      { metrics :=
          { st.metrics with
              message_count := st.metrics.message_count + 1
              last_message_at := now }
        data_queue := st.data_queue } := by
  unfold on_message
  dsimp only
  rw [if_neg (by omega)]

/-- C6 counterexample: with the queue full the handler drops the incoming
payload (queue unchanged) but the resulting metrics are identical to those
from processing the same message with a non-full queue — nothing in
ConnectionMetrics records the drop, so no messagesDropped counter is
incremented (the dataclass has no such field). -/
theorem c6_counterexample :
    (on_message ⟨⟨3, 4, 5, 6⟩, List.replicate 1000 (mkCandle "100" "1")⟩
        (IncomingMessage.dataMsg (mkCandle "101" "1")) 7).data_queue
      = List.replicate 1000 (mkCandle "100" "1") ∧
    (on_message ⟨⟨3, 4, 5, 6⟩, List.replicate 1000 (mkCandle "100" "1")⟩
        (IncomingMessage.dataMsg (mkCandle "101" "1")) 7).metrics
      = (on_message ⟨⟨3, 4, 5, 6⟩, []⟩
          (IncomingMessage.dataMsg (mkCandle "101" "1")) 7).metrics := by
  have hfull : queue_maxsize ≤ (List.replicate 1000 (mkCandle "100" "1")).length := by
    rw [List.length_replicate]
    exact Nat.le.refl
  constructor
  · rw [on_message_full _ _ _ hfull]
  · rw [on_message_full _ _ _ hfull]
    rfl

/-- C6 (amended): when the delivery queue is full the handler drops the
newest incoming event without blocking (the queue is left unchanged and the
handler returns), but no drop counter is incremented: `message_count` and
`last_message_at` are updated exactly as for a processed message, and
`error_count` and `connected_at` are untouched — ConnectionMetrics has no
messagesDropped field, the drop is only logged. -/
theorem c6_amended (st : WsState) (c : Candle) (now : Nat)
    (h : queue_maxsize ≤ st.data_queue.length) :
    on_message st (IncomingMessage.dataMsg c) now =
      { metrics :=
          { st.metrics with
              message_count := st.metrics.message_count + 1
              last_message_at := now }
        data_queue := st.data_queue } :=
  on_message_full st c now h

/-- C6 witness: the amended statement at a concretely full queue. -/
theorem c6_witness :
    queue_maxsize ≤ (List.replicate 1000 (mkCandle "100" "1")).length ∧
    on_message ⟨⟨3, 4, 5, 6⟩, List.replicate 1000 (mkCandle "100" "1")⟩
        (IncomingMessage.dataMsg (mkCandle "101" "1")) 7
      = ⟨⟨4, 4, 5, 7⟩, List.replicate 1000 (mkCandle "100" "1")⟩ :=
  ⟨by rw [List.length_replicate]; exact Nat.le.refl,
    by
      rw [c6_amended ⟨⟨3, 4, 5, 6⟩, List.replicate 1000 (mkCandle "100" "1")⟩
        (mkCandle "101" "1") 7 (by rw [List.length_replicate]; exact Nat.le.refl)]⟩

/-- C7 counterexample: a malformed message leaves the whole websocket state
unchanged — in particular the error counter is not incremented, contrary to
the claim (the JSONDecodeError branch only logs). -/
theorem c7_counterexample :
    on_message ⟨⟨3, 4, 5, 6⟩, [mkCandle "100" "1"]⟩ IncomingMessage.malformed 7
      = ⟨⟨3, 4, 5, 6⟩, [mkCandle "100" "1"]⟩ ∧
    (on_message ⟨⟨3, 4, 5, 6⟩, [mkCandle "100" "1"]⟩
        IncomingMessage.malformed 7).metrics.error_count ≠ 4 + 1 :=
  ⟨rfl, by decide⟩

/-- C7 (amended): every malformed (unparseable) message is caught inside the
message handler and discarded — it is never enqueued and no exception
propagates — but the error counter is left unchanged: the handler's
JSONDecodeError branch only logs, and `error_count` increments only in the
generic post-parse exception branch. -/
theorem c7_amended (st : WsState) (now : Nat) :
    on_message st IncomingMessage.malformed now = st := rfl

/-- C8 counterexample: constructing with the supported interval "1min" and
the non-positive lookbacks 0 and -5 succeeds — no exception is raised, the
start time simply lands at or after `now`, contradicting the claim that a
non-positive lookback fails at construction time. -/
theorem c8_counterexample :
    candleUpdate_init (fun _ => []) "1min" 0 1000 = Except.ok (1000, []) ∧
    candleUpdate_init (fun _ => []) "1min" (-5) 1000 = Except.ok (1300, []) :=
  ⟨rfl, rfl⟩

/-- C8 (amended): a timeframe ending in none of min/hour/day fails at
construction with ValueError, before and independently of any fetch;
whether construction fails never depends on the lookback value or the
clock — in particular a non-positive lookback is accepted: with the
supported interval "1min" construction succeeds for every lookback,
returning start time `now - lookback * 60`. -/
theorem c8_amended :
    (∀ (f g : Unit → List Candle) (tf : String) (lb now : Int),
       py_endswith tf "min" = false → py_endswith tf "hour" = false →
       py_endswith tf "day" = false →
       candleUpdate_init f tf lb now = Except.error "ValueError: Unsupported timeframe" ∧
       candleUpdate_init f tf lb now = candleUpdate_init g tf lb now) ∧
    (∀ (tf : String) (lb₁ now₁ lb₂ now₂ : Int),
       exceptOk (calculate_start_time_with_bars tf lb₁ now₁)
         = exceptOk (calculate_start_time_with_bars tf lb₂ now₂)) ∧
    (∀ (f : Unit → List Candle) (lb now : Int),
       candleUpdate_init f "1min" lb now = Except.ok (now - lb * 60, f ())) := by
  refine ⟨?_, ?_, ?_⟩
  · intro f g tf lb now h1 h2 h3
    have hcalc : calculate_start_time_with_bars tf lb now
        = Except.error "ValueError: Unsupported timeframe" := by
      unfold calculate_start_time_with_bars
      rw [h1, h2, h3]
      simp
    constructor
    · unfold candleUpdate_init
      rw [hcalc]
    · unfold candleUpdate_init
      rw [hcalc]
  · intro tf lb₁ now₁ lb₂ now₂
    unfold calculate_start_time_with_bars
    split_ifs with h1 h2 h3
    · cases hp : py_int? (tf.dropRight 3) <;> simp [hp, exceptOk]
    · cases hp : py_int? (tf.dropRight 4) <;> simp [hp, exceptOk]
    · cases hp : py_int? (tf.dropRight 3) <;> simp [hp, exceptOk]
    · rfl
  · intro f lb now
    have hcalc : calculate_start_time_with_bars "1min" lb now
        = Except.ok (now - lb * (1 * 60)) := rfl
    unfold candleUpdate_init
    rw [hcalc]
    norm_num

/-- C8 witness: the unsupported interval "1sec" fails at construction for
every fetch collaborator, here at two concrete ones. -/
theorem c8_witness :
    py_endswith "1sec" "min" = false ∧ py_endswith "1sec" "hour" = false ∧
    py_endswith "1sec" "day" = false ∧
    (candleUpdate_init (fun _ => []) "1sec" 100 1000
        = Except.error "ValueError: Unsupported timeframe" ∧
      candleUpdate_init (fun _ => []) "1sec" 100 1000
        = candleUpdate_init (fun _ => [mkCandle "1" "1"]) "1sec" 100 1000) :=
  ⟨by decide, by decide, by decide,
    c8_amended.1 (fun _ => []) (fun _ => [mkCandle "1" "1"]) "1sec" 100 1000
      (by decide) (by decide) (by decide)⟩

/-- C9: in CandleUpdate.start the classification indexes `candle_list[-1]`
without an emptiness guard, so on an empty backfill every event makes the
step fail with IndexError instead of appending — no live bar is ever
appended to an empty series by this loop; the packaged
LiveDataUpdater.process_data guards the empty case and appends the event as
the first bar. -/
theorem c9_empty_series (c : Candle) (N : Nat) :
    start_step [] c = Except.error "IndexError: list index out of range" ∧
    process_data N [] (some c) = [c] := by
  constructor
  · rfl
  · show add_new_candle N [] c = [c]
    exact add_new_candle_nil N c

/-- C10: the merged backfill output is always sorted in non-decreasing
lexicographic order of the timestamp strings (the sort key is the string
`x[0]`); when every timestamp in the input is a digit string of one common
length, this coincides with non-decreasing numeric openTime order; with
mixed digit counts it genuinely diverges — on the input with timestamps
"100" and "99" the output is lexicographically sorted but not numerically
sorted. -/
theorem c10_sort_order :
    (∀ (chunks : List Candle) (start_ts end_ts : Nat),
       (fetch_all_candles chunks start_ts end_ts).Pairwise
         (fun a b => candleKeyLe a b = true)) ∧
    (∀ (chunks : List Candle) (start_ts end_ts L : Nat),
       chunks.all (fun c => allDigits c.timestamp
           && decide (c.timestamp.data.length = L)) = true →
       (fetch_all_candles chunks start_ts end_ts).Pairwise
         (fun a b => tsVal a ≤ tsVal b)) ∧
    ¬ (fetch_all_candles [mkCandle "100" "1", mkCandle "99" "1"] 0 1000).Pairwise
        (fun a b => tsVal a ≤ tsVal b) := by
  refine ⟨sorted_fetch_all_candles, ?_, ?_⟩
  · intro chunks start_ts end_ts L h
    refine sorted_val_fetch_all_candles chunks start_ts end_ts L ?_
    intro c hc
    have := List.all_eq_true.mp h c hc
    rw [Bool.and_eq_true, decide_eq_true_eq] at this
    exact this
  · rw [fetch_mixed_digits]
    decide

/-- C10 witness: equal-length digit timestamps; the output is numerically
sorted. -/
theorem c10_witness :
    ([mkCandle "101" "1", mkCandle "100" "1"].all
        (fun c => allDigits c.timestamp && decide (c.timestamp.data.length = 3))) = true ∧
    (fetch_all_candles [mkCandle "101" "1", mkCandle "100" "1"] 0 1000).Pairwise
      (fun a b => tsVal a ≤ tsVal b) :=
  ⟨by decide,
    c10_sort_order.2.1 [mkCandle "101" "1", mkCandle "100" "1"] 0 1000 3 (by decide)⟩
